import Mathlib

/-!
Shallow embedding of the `farazht/neural-network` repository
(`src/LinearAlgebra.c++`, `src/NeuralNetwork.c++`) and proofs about it.

Conventions of the embedding:
* C++ `double` is modelled as `ℝ`.
* A C++ `Matrix` (`rows`, `cols`, `std::vector<std::vector<double>>` zero
  initialized at construction) is modelled as explicit dimensions plus a total
  entry function `data : ℕ → ℕ → ℝ`.  Every matrix the code builds is produced
  by `Matrix::Matrix(rows, cols)` (all zero) followed by in-range writes, so
  every embedded operation is expressed with `NN.build`, whose entry function
  is `0` outside the declared index range.  An out-of-range `Matrix::at` read
  in the C++ code is undefined behaviour; the embedding refines it
  deterministically to the value `0`.
* `rand() / RAND_MAX` is modelled as an ambient sequence `u : ℕ → ℝ` of draws
  (each in `[0, 1]`), consumed in the order the C++ code calls `rand()`.
* `elementwiseMultiply` is declared in `LinearAlgebra.h`; the only definition
  of that operation under `src/` is `hadamardProduct` in `LinearAlgebra.c++`
  (its comment: "Hadamard product, also known as elementwise multiplication"),
  so the embedding uses that body for `elementwiseMultiply`.
* No function of the repository ever throws or reports an error: the embedding
  is therefore total, with no error type.
-/

namespace NN

noncomputable section

open scoped Classical

/-- Model of the C++ `Matrix` class: dimensions plus a total entry function
(`data i j` models `at(i, j)`; reads outside the stored `rows × cols` block are
undefined behaviour in C++ and are refined to `0` here). -/
@[ext]
structure Matrix where
  rows : ℕ
  cols : ℕ
  data : ℕ → ℕ → ℝ

/-- A `Matrix(rows, cols)` construction followed by writing `f i j` at every
in-range position, which is how every operation of `LinearAlgebra.c++` builds
its result. -/
def build (r c : ℕ) (f : ℕ → ℕ → ℝ) : Matrix :=
  ⟨r, c, fun i j => if i < r ∧ j < c then f i j else 0⟩

/-- The all-zero matrix `Matrix(rows, cols)` of `LinearAlgebra.c++` line 15. -/
def Matrix.zero (r c : ℕ) : Matrix := build r c (fun _ _ => 0)

/-- Dummy matrix used as the default of list lookups that the code guarantees
to be in range. -/
def Matrix.empty : Matrix := ⟨0, 0, fun _ _ => 0⟩

/-- `Matrix::randomMatrix(rows, cols, min, max)`: entry `(i, j)` is
`min + (max - min) * rand() / RAND_MAX`, consuming draws in row-major order
starting at position `k` of the ambient draw sequence `u`. -/
def randomMatrix (r c : ℕ) (lo hi : ℝ) (u : ℕ → ℝ) (k : ℕ) : Matrix :=
  build r c (fun i j => lo + (hi - lo) * u (k + i * c + j))

/-- `Matrix::valueMatrix(rows, cols, value)`. -/
def valueMatrix (r c : ℕ) (v : ℝ) : Matrix := build r c (fun _ _ => v)

/-- `add(a, b)` from `LinearAlgebra.c++`: loops over `a`'s index range with no
shape check; `b.at(i, j)` may be read out of `b`'s range. -/
def add (a b : Matrix) : Matrix :=
  build a.rows a.cols (fun i j => a.data i j + b.data i j)

/-- `subtract(a, b)` from `LinearAlgebra.c++`: loops over `a`'s index range
with no shape check. -/
def subtract (a b : Matrix) : Matrix :=
  build a.rows a.cols (fun i j => a.data i j - b.data i j)

/-- `multiply(a, b)` from `LinearAlgebra.c++`: result is `[a.rows × b.cols]`,
entry `(i, j) = Σ_{k < a.cols} a(i, k) · b(k, j)`, with no check that
`a.cols = b.rows`. -/
def multiply (a b : Matrix) : Matrix :=
  build a.rows b.cols (fun i j => ∑ k ∈ Finset.range a.cols, a.data i k * b.data k j)

/-- `scalarMultiply(scalar, matrix)` from `LinearAlgebra.c++`. -/
def scalarMultiply (s : ℝ) (m : Matrix) : Matrix :=
  build m.rows m.cols (fun i j => s * m.data i j)

/-- `elementwiseMultiply(a, b)` as declared in `LinearAlgebra.h`; body from
`hadamardProduct` in `LinearAlgebra.c++` (elementwise product over `a`'s index
range, no shape check). -/
def elementwiseMultiply (a b : Matrix) : Matrix :=
  build a.rows a.cols (fun i j => a.data i j * b.data i j)

/-- `transpose(matrix)` from `LinearAlgebra.c++`. -/
def transpose (m : Matrix) : Matrix :=
  build m.cols m.rows (fun i j => m.data j i)

/-- `meanSquaredError(a, b)` from `LinearAlgebra.c++`: accumulates
`diff * diff` over `a`'s index range, then divides by
`2.0 * a.getRows() * a.getCols()`. -/
def meanSquaredError (a b : Matrix) : ℝ :=
  (∑ i ∈ Finset.range a.rows, ∑ j ∈ Finset.range a.cols,
      (a.data i j - b.data i j) * (a.data i j - b.data i j)) /
    (2 * a.rows * a.cols)

/-- Model of the C++ `NeuralNetwork` class state. -/
structure NeuralNetwork where
  layers : List ℕ
  weights : List Matrix
  biases : List Matrix

/-- The constructor loop of `NeuralNetwork::NeuralNetwork`: for each adjacent
pair `(layers[i], layers[i+1])` it computes the Xavier limit
`sqrt(6 / (layers[i] + layers[i+1]))` and pushes a random
`[layers[i+1] × layers[i]]` weight matrix and a random `[layers[i+1] × 1]`
bias vector, both with entries in `[-limit, limit]`, consuming `rand()` draws
in order (offset `k`). -/
def initLoop (u : ℕ → ℝ) : List ℕ → ℕ → List Matrix × List Matrix
  | l0 :: l1 :: rest, k =>
      let limit : ℝ := Real.sqrt (6 / ((l0 : ℝ) + (l1 : ℝ)))
      let w := randomMatrix l1 l0 (-limit) limit u k
      let b := randomMatrix l1 1 (-limit) limit u (k + l1 * l0)
      let p := initLoop u (l1 :: rest) (k + l1 * l0 + l1)
      (w :: p.1, b :: p.2)
  | _, _ => ([], [])

/-- `NeuralNetwork::NeuralNetwork(layers)`: no validation of the layer list is
performed; the constructor only runs the initialization loop.  (A list of
fewer than two elements simply makes the loop body run zero times.) -/
def construct (layers : List ℕ) (u : ℕ → ℝ) : NeuralNetwork :=
  ⟨layers, (initLoop u layers 0).1, (initLoop u layers 0).2⟩

/-- `NeuralNetwork::sigmoid`. -/
def sigmoid (input : Matrix) : Matrix :=
  build input.rows input.cols (fun i j => 1 / (1 + Real.exp (-input.data i j)))

/-- `NeuralNetwork::ReLU`. -/
def ReLU (input : Matrix) : Matrix :=
  build input.rows input.cols (fun i j => max 0 (input.data i j))

/-- `NeuralNetwork::ReLUDerivative`: `1` where the entry is `> 0`, else `0`. -/
def ReLUDerivative (input : Matrix) : Matrix :=
  build input.rows input.cols (fun i j => if 0 < input.data i j then 1 else 0)

/-- `NeuralNetwork::softmax`: entry `(i, j)` is
`exp(input(i, j)) / Σ_{k < rows} exp(input(k, j))` (column-wise). -/
def softmax (input : Matrix) : Matrix :=
  build input.rows input.cols
    (fun i j => Real.exp (input.data i j) /
      ∑ k ∈ Finset.range input.rows, Real.exp (input.data k j))

/-- The loop of `NeuralNetwork::feedforward` over the `(weights[i], biases[i])`
pairs: `activation = add(multiply(w, activation), b)` then `ReLU` for every
transition but the last, `softmax` for the last. -/
def forwardLoop : Matrix → List (Matrix × Matrix) → Matrix
  | act, [] => act
  | act, (w, b) :: rest =>
      match rest with
      | [] => softmax (add (multiply w act) b)
      | _ :: _ => forwardLoop (ReLU (add (multiply w act) b)) rest

/-- `NeuralNetwork::feedforward(input)`. -/
def feedforward (net : NeuralNetwork) (input : Matrix) : Matrix :=
  forwardLoop input (net.weights.zip net.biases)

/-- State-passing embedding of the `feedforward` member call: the C++ body
assigns no member field (it only reads `weights` and `biases` into the local
`activation`), so the post-call object state is the pre-call state. -/
def feedforwardS (net : NeuralNetwork) (input : Matrix) : Matrix × NeuralNetwork :=
  (feedforward net input, net)

/-- `LEARNING_RATE`, hard-coded to `0.001` in `NeuralNetwork::backpropagate`. -/
def LEARNING_RATE : ℝ := 0.001

/-- `L2_LAMBDA`, hard-coded to `0.01` in `NeuralNetwork::backpropagate` and
unconditionally added: `weight_gradient = add(weight_gradient, scalarMultiply(L2_LAMBDA, weights[i]))`. -/
def L2_LAMBDA : ℝ := 0.01

/-- `DELTA_SCALE`, hard-coded to `1.5` in `NeuralNetwork::backpropagate` and
unconditionally applied to every propagated delta. -/
def DELTA_SCALE : ℝ := 1.5

/-- The storing forward pass at the top of `NeuralNetwork::backpropagate`:
returns (`activations`, `zs`) with the incoming activation pushed first, each
`z = add(multiply(w, act), b)` pushed in order, and activations
`ReLU(z)` (non-final) or `softmax(z)` (final) pushed after the input. -/
def forwardStore : Matrix → List (Matrix × Matrix) → List Matrix × List Matrix
  | act, [] => ([act], [])
  | act, (w, b) :: rest =>
      let z := add (multiply w act) b
      let a2 := match rest with
        | [] => softmax z
        | _ :: _ => ReLU z
      let p := forwardStore a2 rest
      (act :: p.1, z :: p.2)

/-- One delta propagation of the backward loop, from layer index `m > 0` to
`m - 1`, reading the (pre-update) weight `ws[m]` and cached `zs[m-1]`:
`scalarMultiply(DELTA_SCALE, elementwiseMultiply(multiply(transpose(weights[m]), delta), ReLUDerivative(zs[m-1])))`. -/
def propagateStep (ws zs : List Matrix) (m : ℕ) (d : Matrix) : Matrix :=
  scalarMultiply DELTA_SCALE
    (elementwiseMultiply (multiply (transpose (ws.getD m Matrix.empty)) d)
      (ReLUDerivative (zs.getD (m - 1) Matrix.empty)))

/-- The delta value after `k` propagation steps of the backward loop, starting
from value `d` at layer index `i` and always reading the original (pre-update)
weight list `ws`. -/
def deltaDown (ws zs : List Matrix) : ℕ → Matrix → ℕ → Matrix
  | _, d, 0 => d
  | i, d, k + 1 => deltaDown ws zs (i - 1) (propagateStep ws zs i d) k

/-- The backward loop of `NeuralNetwork::backpropagate`, from layer index `i`
down to `0`.  At each index: `weight_gradient = add(multiply(delta,
transpose(activations[i])), scalarMultiply(L2_LAMBDA, weights[i]))`,
`bias_gradient = delta`; for `i > 0` the next delta is computed from the
current (not yet overwritten) `weights[i]`; then
`weights[i] = subtract(weights[i], scalarMultiply(LEARNING_RATE, weight_gradient))`
and `biases[i] = subtract(biases[i], scalarMultiply(LEARNING_RATE, bias_gradient))`. -/
def backLoop (acts zs : List Matrix) : ℕ → Matrix → List Matrix → List Matrix → List Matrix × List Matrix
  | 0, d, ws, bs =>
      let w := ws.getD 0 Matrix.empty
      let wg := add (multiply d (transpose (acts.getD 0 Matrix.empty))) (scalarMultiply L2_LAMBDA w)
      (ws.set 0 (subtract w (scalarMultiply LEARNING_RATE wg)),
       bs.set 0 (subtract (bs.getD 0 Matrix.empty) (scalarMultiply LEARNING_RATE d)))
  | i + 1, d, ws, bs =>
      let w := ws.getD (i + 1) Matrix.empty
      let wg := add (multiply d (transpose (acts.getD (i + 1) Matrix.empty))) (scalarMultiply L2_LAMBDA w)
      backLoop acts zs i (propagateStep ws zs (i + 1) d)
        (ws.set (i + 1) (subtract w (scalarMultiply LEARNING_RATE wg)))
        (bs.set (i + 1) (subtract (bs.getD (i + 1) Matrix.empty) (scalarMultiply LEARNING_RATE d)))

/-- The cached activation list of a `backpropagate` call (`activations` in the
C++ body), with `activations[0] = input`. -/
def cachedActs (net : NeuralNetwork) (input : Matrix) : List Matrix :=
  (forwardStore input (net.weights.zip net.biases)).1

/-- The cached pre-activation list of a `backpropagate` call (`zs` in the C++
body). -/
def cachedZs (net : NeuralNetwork) (input : Matrix) : List Matrix :=
  (forwardStore input (net.weights.zip net.biases)).2

/-- The output-layer delta of `backpropagate`:
`subtract(activations.back(), expected)`. -/
def outputDelta (net : NeuralNetwork) (input expected : Matrix) : Matrix :=
  subtract ((cachedActs net input).getLastD Matrix.empty) expected

/-- The delta the backward loop uses at layer index `j`, written in terms of
the original (pre-update) weight list. -/
def layerDelta (net : NeuralNetwork) (input expected : Matrix) (j : ℕ) : Matrix :=
  deltaDown net.weights (cachedZs net input) (net.weights.length - 1)
    (outputDelta net input expected) (net.weights.length - 1 - j)

/-- `NeuralNetwork::backpropagate(input, expected)`: the storing forward pass
followed by the backward loop from index `weights.size() - 1` down to `0`.
No shape of `input` or `expected` is ever checked.  (With zero transitions the
C++ loop `for (int i = weights.size() - 1; i >= 0; i--)` does not run.) -/
def backpropagate (net : NeuralNetwork) (input expected : Matrix) : NeuralNetwork :=
  match net.weights.length with
  | 0 => net
  | n + 1 =>
      { net with
        weights := (backLoop (cachedActs net input) (cachedZs net input) n
          (outputDelta net input expected) net.weights net.biases).1,
        biases := (backLoop (cachedActs net input) (cachedZs net input) n
          (outputDelta net input expected) net.weights net.biases).2 }

/-- Spec-side bias addition, following the specification's words for the
forward pass: `z = weight·activation + bias` with the `[n × 1]` bias column
added to every column of `weight·activation` (broadcast).  Written from the
spec, for comparison with the source-derived `add`. -/
def addBroadcast (a b : Matrix) : Matrix :=
  build a.rows a.cols (fun i j => a.data i j + b.data i 0)

/-- Spec-side forward loop, following the specification's words: identical to
`forwardLoop` except that the bias is broadcast across all input columns. -/
def specForwardLoop : Matrix → List (Matrix × Matrix) → Matrix
  | act, [] => act
  | act, (w, b) :: rest =>
      match rest with
      | [] => softmax (addBroadcast (multiply w act) b)
      | _ :: _ => specForwardLoop (ReLU (addBroadcast (multiply w act) b)) rest

/-- Spec-side `feedforward`, following the specification's words (batched
input: bias broadcast over the columns). -/
def specFeedforward (net : NeuralNetwork) (input : Matrix) : Matrix :=
  specForwardLoop input (net.weights.zip net.biases)

/-- The shape discipline the spec declares for a constructed network: one
weight `[layers[i+1] × layers[i]]` and one bias `[layers[i+1] × 1]` per
adjacent pair of layers. -/
def NeuralNetwork.wellFormed (net : NeuralNetwork) : Prop :=
  net.layers.length = net.weights.length + 1 ∧
  net.biases.length = net.weights.length ∧
  ∀ i, i < net.weights.length →
    (net.weights.getD i Matrix.empty).rows = net.layers.getD (i + 1) 0 ∧
    (net.weights.getD i Matrix.empty).cols = net.layers.getD i 0 ∧
    (net.biases.getD i Matrix.empty).rows = net.layers.getD (i + 1) 0 ∧
    (net.biases.getD i Matrix.empty).cols = 1

/-! ### Concrete instances used by counterexamples and witnesses -/

/-- The `[1 × 1]` matrix holding the single value `x`. -/
def mat1x1 (x : ℝ) : Matrix := build 1 1 (fun _ _ => x)

/-- A concrete `{1, 1}` network with weight `[[1]]` and bias `[[0]]`. -/
def exNetA : NeuralNetwork := ⟨[1, 1], [mat1x1 1], [mat1x1 0]⟩

/-- A `[2 × 1]` all-zero matrix: an expected-output whose row count `2`
mismatches `exNetA`'s output width `1`. -/
def exBadExpected : Matrix := build 2 1 (fun _ _ => 0)

/-- A concrete `{1, 2}` network with zero weights and bias `[[1], [0]]`. -/
def exNetB : NeuralNetwork :=
  ⟨[1, 2], [build 2 1 (fun _ _ => 0)], [build 2 1 (fun i _ => if i = 0 then 1 else 0)]⟩

/-- A `[1 × 2]` all-zero input (two samples as columns) for `exNetB`. -/
def exInputB : Matrix := build 1 2 (fun _ _ => 0)

end

/-! ### Unfolding lemmas for the matrix operations -/

@[simp] theorem build_rows (r c : ℕ) (f : ℕ → ℕ → ℝ) : (build r c f).rows = r := rfl

@[simp] theorem build_cols (r c : ℕ) (f : ℕ → ℕ → ℝ) : (build r c f).cols = c := rfl

@[simp] theorem build_data (r c : ℕ) (f : ℕ → ℕ → ℝ) (i j : ℕ) :
    (build r c f).data i j = if i < r ∧ j < c then f i j else 0 := rfl

@[simp] theorem add_rows (a b : Matrix) : (add a b).rows = a.rows := rfl

@[simp] theorem add_cols (a b : Matrix) : (add a b).cols = a.cols := rfl

theorem add_data (a b : Matrix) (i j : ℕ) :
    (add a b).data i j =
      if i < a.rows ∧ j < a.cols then a.data i j + b.data i j else 0 := rfl

@[simp] theorem subtract_rows (a b : Matrix) : (subtract a b).rows = a.rows := rfl

@[simp] theorem subtract_cols (a b : Matrix) : (subtract a b).cols = a.cols := rfl

theorem subtract_data (a b : Matrix) (i j : ℕ) :
    (subtract a b).data i j =
      if i < a.rows ∧ j < a.cols then a.data i j - b.data i j else 0 := rfl

@[simp] theorem multiply_rows (a b : Matrix) : (multiply a b).rows = a.rows := rfl

@[simp] theorem multiply_cols (a b : Matrix) : (multiply a b).cols = b.cols := rfl

theorem multiply_data (a b : Matrix) (i j : ℕ) :
    (multiply a b).data i j =
      if i < a.rows ∧ j < b.cols then
        ∑ k ∈ Finset.range a.cols, a.data i k * b.data k j
      else 0 := rfl

@[simp] theorem scalarMultiply_rows (s : ℝ) (m : Matrix) : (scalarMultiply s m).rows = m.rows := rfl

@[simp] theorem scalarMultiply_cols (s : ℝ) (m : Matrix) : (scalarMultiply s m).cols = m.cols := rfl

theorem scalarMultiply_data (s : ℝ) (m : Matrix) (i j : ℕ) :
    (scalarMultiply s m).data i j =
      if i < m.rows ∧ j < m.cols then s * m.data i j else 0 := rfl

@[simp] theorem elementwiseMultiply_rows (a b : Matrix) : (elementwiseMultiply a b).rows = a.rows := rfl

@[simp] theorem elementwiseMultiply_cols (a b : Matrix) : (elementwiseMultiply a b).cols = a.cols := rfl

@[simp] theorem transpose_rows (m : Matrix) : (transpose m).rows = m.cols := rfl

@[simp] theorem transpose_cols (m : Matrix) : (transpose m).cols = m.rows := rfl

@[simp] theorem ReLU_rows (m : Matrix) : (ReLU m).rows = m.rows := rfl

@[simp] theorem ReLU_cols (m : Matrix) : (ReLU m).cols = m.cols := rfl

@[simp] theorem softmax_rows (m : Matrix) : (softmax m).rows = m.rows := rfl

@[simp] theorem softmax_cols (m : Matrix) : (softmax m).cols = m.cols := rfl

theorem softmax_data (m : Matrix) (i j : ℕ) :
    (softmax m).data i j =
      if i < m.rows ∧ j < m.cols then
        Real.exp (m.data i j) / ∑ k ∈ Finset.range m.rows, Real.exp (m.data k j)
      else 0 := rfl

/-! ### List helper lemmas -/

theorem getD_set_self {α : Type*} {l : List α} {n : ℕ} (x d : α) (h : n < l.length) :
    (l.set n x).getD n d = x := by
  simp [List.getD_eq_getElem?_getD, List.getElem?_set, h]

theorem getD_set_ne {α : Type*} {l : List α} {n m : ℕ} (x d : α) (h : n ≠ m) :
    (l.set n x).getD m d = l.getD m d := by
  simp [List.getD_eq_getElem?_getD, List.getElem?_set, h]

theorem zip_getD {α β : Type*} :
    ∀ (l1 : List α) (l2 : List β) (k : ℕ) (d1 : α) (d2 : β), k < l1.length → k < l2.length →
      (l1.zip l2).getD k (d1, d2) = (l1.getD k d1, l2.getD k d2)
  | [], _, _, _, _, h1, _ => absurd h1 (by simp)
  | _ :: _, [], _, _, _, _, h2 => absurd h2 (by simp)
  | a :: l1, b :: l2, 0, d1, d2, _, _ => by simp [List.zip_cons_cons]
  | a :: l1, b :: l2, k + 1, d1, d2, h1, h2 => by
      simp only [List.zip_cons_cons, List.getD_cons_succ]
      exact zip_getD l1 l2 k d1 d2 (by simpa using h1) (by simpa using h2)

/-! ### Lemmas about the backward-loop delta sequence -/

theorem deltaDown_zero (ws zs : List Matrix) (i : ℕ) (d : Matrix) :
    deltaDown ws zs i d 0 = d := rfl

theorem deltaDown_succ (ws zs : List Matrix) (i : ℕ) (d : Matrix) (k : ℕ) :
    deltaDown ws zs i d (k + 1) = deltaDown ws zs (i - 1) (propagateStep ws zs i d) k := rfl

theorem deltaDown_congr (ws ws' zs : List Matrix) :
    ∀ (k i : ℕ) (d : Matrix),
      (∀ m, m ≤ i → ws.getD m Matrix.empty = ws'.getD m Matrix.empty) →
      deltaDown ws zs i d k = deltaDown ws' zs i d k
  | 0, _, _, _ => rfl
  | k + 1, i, d, h => by
      rw [deltaDown_succ, deltaDown_succ,
        show propagateStep ws zs i d = propagateStep ws' zs i d by
          unfold propagateStep; rw [h i le_rfl]]
      exact deltaDown_congr ws ws' zs k (i - 1) _
        (fun m hm => h m (le_trans hm (Nat.sub_le i 1)))

theorem deltaDown_succ_last (ws zs : List Matrix) :
    ∀ (k i : ℕ) (d : Matrix),
      deltaDown ws zs i d (k + 1) = propagateStep ws zs (i - k) (deltaDown ws zs i d k)
  | 0, i, d => rfl
  | k + 1, i, d => by
      rw [deltaDown_succ ws zs i d (k + 1),
        deltaDown_succ_last ws zs k (i - 1) (propagateStep ws zs i d),
        ← deltaDown_succ ws zs i d k, Nat.sub_sub, Nat.add_comm 1 k]

/-! ### Characterization of the backward loop -/

theorem backLoop_zero (acts zs : List Matrix) (d : Matrix) (ws bs : List Matrix) :
    backLoop acts zs 0 d ws bs =
      (ws.set 0 (subtract (ws.getD 0 Matrix.empty)
        (scalarMultiply LEARNING_RATE
          (add (multiply d (transpose (acts.getD 0 Matrix.empty)))
            (scalarMultiply L2_LAMBDA (ws.getD 0 Matrix.empty))))),
       bs.set 0 (subtract (bs.getD 0 Matrix.empty) (scalarMultiply LEARNING_RATE d))) := rfl

theorem backLoop_succ (acts zs : List Matrix) (i : ℕ) (d : Matrix) (ws bs : List Matrix) :
    backLoop acts zs (i + 1) d ws bs =
      backLoop acts zs i (propagateStep ws zs (i + 1) d)
        (ws.set (i + 1) (subtract (ws.getD (i + 1) Matrix.empty)
          (scalarMultiply LEARNING_RATE
            (add (multiply d (transpose (acts.getD (i + 1) Matrix.empty)))
              (scalarMultiply L2_LAMBDA (ws.getD (i + 1) Matrix.empty))))))
        (bs.set (i + 1) (subtract (bs.getD (i + 1) Matrix.empty)
          (scalarMultiply LEARNING_RATE d))) := rfl

theorem backLoop_lengths (acts zs : List Matrix) :
    ∀ (i : ℕ) (d : Matrix) (ws bs : List Matrix),
      (backLoop acts zs i d ws bs).1.length = ws.length ∧
      (backLoop acts zs i d ws bs).2.length = bs.length
  | 0, d, ws, bs => by simp [backLoop_zero]
  | i + 1, d, ws, bs => by
      constructor
      · rw [backLoop_succ, (backLoop_lengths acts zs i _ _ _).1, List.length_set]
      · rw [backLoop_succ, (backLoop_lengths acts zs i _ _ _).2, List.length_set]

theorem backLoop_getD (acts zs : List Matrix) :
    ∀ (i : ℕ) (d : Matrix) (ws bs : List Matrix), i < ws.length → i < bs.length → ∀ j : ℕ,
      ((backLoop acts zs i d ws bs).1.getD j Matrix.empty =
        if j ≤ i then
          subtract (ws.getD j Matrix.empty)
            (scalarMultiply LEARNING_RATE
              (add (multiply (deltaDown ws zs i d (i - j)) (transpose (acts.getD j Matrix.empty)))
                (scalarMultiply L2_LAMBDA (ws.getD j Matrix.empty))))
        else ws.getD j Matrix.empty) ∧
      ((backLoop acts zs i d ws bs).2.getD j Matrix.empty =
        if j ≤ i then
          subtract (bs.getD j Matrix.empty)
            (scalarMultiply LEARNING_RATE (deltaDown ws zs i d (i - j)))
        else bs.getD j Matrix.empty) := by
  intro i
  induction i with
  | zero =>
      intro d ws bs hw hb j
      rw [backLoop_zero]
      rcases Nat.eq_zero_or_pos j with hj | hj
      · subst hj
        rw [getD_set_self _ _ hw, getD_set_self _ _ hb]
        simp [deltaDown_zero]
      · rw [getD_set_ne _ _ (by omega), getD_set_ne _ _ (by omega),
          if_neg (by omega), if_neg (by omega)]
        exact ⟨rfl, rfl⟩
  | succ i ih =>
      intro d ws bs hw hb j
      rw [backLoop_succ]
      have hw2 : i < (ws.set (i + 1) (subtract (ws.getD (i + 1) Matrix.empty)
          (scalarMultiply LEARNING_RATE
            (add (multiply d (transpose (acts.getD (i + 1) Matrix.empty)))
              (scalarMultiply L2_LAMBDA (ws.getD (i + 1) Matrix.empty)))))).length := by
        rw [List.length_set]; omega
      have hb2 : i < (bs.set (i + 1) (subtract (bs.getD (i + 1) Matrix.empty)
          (scalarMultiply LEARNING_RATE d))).length := by
        rw [List.length_set]; omega
      obtain ⟨ih1, ih2⟩ := ih (propagateStep ws zs (i + 1) d) _ _ hw2 hb2 j
      rw [ih1, ih2]
      have hset : ∀ m, m ≤ i →
          (ws.set (i + 1) (subtract (ws.getD (i + 1) Matrix.empty)
            (scalarMultiply LEARNING_RATE
              (add (multiply d (transpose (acts.getD (i + 1) Matrix.empty)))
                (scalarMultiply L2_LAMBDA (ws.getD (i + 1) Matrix.empty)))))).getD m Matrix.empty
            = ws.getD m Matrix.empty := by
        intro m hm; exact getD_set_ne _ _ (by omega)
      by_cases hj : j ≤ i
      · rw [if_pos hj, if_pos hj, if_pos (by omega), if_pos (by omega)]
        have hd : deltaDown (ws.set (i + 1) (subtract (ws.getD (i + 1) Matrix.empty)
            (scalarMultiply LEARNING_RATE
              (add (multiply d (transpose (acts.getD (i + 1) Matrix.empty)))
                (scalarMultiply L2_LAMBDA (ws.getD (i + 1) Matrix.empty)))))) zs i
              (propagateStep ws zs (i + 1) d) (i - j)
            = deltaDown ws zs (i + 1) d (i + 1 - j) := by
          rw [deltaDown_congr _ ws zs (i - j) i _ hset,
            show i + 1 - j = (i - j) + 1 by omega, deltaDown_succ]
          simp
        rw [hset j hj, getD_set_ne _ _ (by omega), hd]
        exact ⟨rfl, rfl⟩
      · by_cases hj1 : j = i + 1
        · subst hj1
          rw [if_neg hj, if_neg hj, if_pos le_rfl, if_pos le_rfl,
            getD_set_self _ _ hw, getD_set_self _ _ hb]
          simp [deltaDown_zero]
        · rw [if_neg hj, if_neg hj, if_neg (by omega), if_neg (by omega),
            getD_set_ne _ _ (by omega), getD_set_ne _ _ (by omega)]
          exact ⟨rfl, rfl⟩

/-! ### Characterization of the storing forward pass -/

theorem forwardStore_nil (act : Matrix) : forwardStore act [] = ([act], []) := rfl

theorem forwardStore_single (act w b : Matrix) :
    forwardStore act [(w, b)] =
      ([act, softmax (add (multiply w act) b)], [add (multiply w act) b]) := rfl

theorem forwardStore_cons2 (act w b : Matrix) (p : Matrix × Matrix) (rest : List (Matrix × Matrix)) :
    forwardStore act ((w, b) :: p :: rest) =
      (act :: (forwardStore (ReLU (add (multiply w act) b)) (p :: rest)).1,
       add (multiply w act) b :: (forwardStore (ReLU (add (multiply w act) b)) (p :: rest)).2) := rfl

theorem forwardStore_fst_length :
    ∀ (pairs : List (Matrix × Matrix)) (act : Matrix),
      (forwardStore act pairs).1.length = pairs.length + 1
  | [], act => rfl
  | [(w, b)], act => rfl
  | (w, b) :: p :: rest, act => by
      rw [forwardStore_cons2]
      simp [forwardStore_fst_length (p :: rest) _]

theorem forwardStore_snd_length :
    ∀ (pairs : List (Matrix × Matrix)) (act : Matrix),
      (forwardStore act pairs).2.length = pairs.length
  | [], act => rfl
  | [(w, b)], act => rfl
  | (w, b) :: p :: rest, act => by
      rw [forwardStore_cons2]
      simp [forwardStore_snd_length (p :: rest) _]

theorem forwardStore_fst_zero :
    ∀ (pairs : List (Matrix × Matrix)) (act : Matrix),
      (forwardStore act pairs).1.getD 0 Matrix.empty = act
  | [], act => rfl
  | [(w, b)], act => rfl
  | (w, b) :: p :: rest, act => by rw [forwardStore_cons2]; simp

theorem forwardStore_spec :
    ∀ (pairs : List (Matrix × Matrix)) (act : Matrix) (k : ℕ), k < pairs.length →
      ((forwardStore act pairs).2.getD k Matrix.empty =
        add (multiply (pairs.getD k (Matrix.empty, Matrix.empty)).1
            ((forwardStore act pairs).1.getD k Matrix.empty))
          (pairs.getD k (Matrix.empty, Matrix.empty)).2) ∧
      ((forwardStore act pairs).1.getD (k + 1) Matrix.empty =
        if k + 1 < pairs.length then ReLU ((forwardStore act pairs).2.getD k Matrix.empty)
        else softmax ((forwardStore act pairs).2.getD k Matrix.empty))
  | [], _, k, hk => absurd hk (by simp)
  | [(w, b)], act, k, hk => by
      have hk0 : k = 0 := by simpa using hk
      subst hk0
      rw [forwardStore_single]
      simp
  | (w, b) :: p :: rest, act, k, hk => by
      rw [forwardStore_cons2]
      match k with
      | 0 =>
          refine ⟨by simp, ?_⟩
          simp only [List.getD_cons_succ, List.getD_cons_zero, List.length_cons]
          rw [if_pos (by omega), forwardStore_fst_zero]
      | k' + 1 =>
          have hk' : k' < (p :: rest).length := by simpa using hk
          obtain ⟨h1, h2⟩ := forwardStore_spec (p :: rest) (ReLU (add (multiply w act) b)) k' hk'
          refine ⟨by simpa using h1, ?_⟩
          simp only [List.getD_cons_succ, List.length_cons]
          rw [h2]
          simp only [List.length_cons]
          by_cases hlt : k' + 1 < rest.length + 1
          · rw [if_pos hlt, if_pos (by omega)]
          · rw [if_neg hlt, if_neg (by omega)]

/-! ### Shape and purity lemmas for the forward pass -/

theorem forwardLoop_cols :
    ∀ (pairs : List (Matrix × Matrix)) (act : Matrix),
      (forwardLoop act pairs).cols = act.cols
  | [], act => rfl
  | [(w, b)], act => rfl
  | (w, b) :: p :: rest, act => by
      rw [show forwardLoop act ((w, b) :: p :: rest) =
          forwardLoop (ReLU (add (multiply w act) b)) (p :: rest) from rfl,
        forwardLoop_cols (p :: rest) _]
      rfl

theorem forwardLoop_rows :
    ∀ (pairs : List (Matrix × Matrix)) (act : Matrix), pairs ≠ [] →
      (forwardLoop act pairs).rows = (pairs.getLastD (Matrix.empty, Matrix.empty)).1.rows
  | [], _, h => absurd rfl h
  | [(w, b)], act, _ => rfl
  | (w, b) :: p :: rest, act, _ => by
      rw [show forwardLoop act ((w, b) :: p :: rest) =
          forwardLoop (ReLU (add (multiply w act) b)) (p :: rest) from rfl,
        forwardLoop_rows (p :: rest) _ (by simp),
        List.getLastD_eq_getLast?, List.getLastD_eq_getLast?, List.getLast?_cons_cons]

/-- `add` agrees with the spec's broadcast addition whenever the left operand
has a single column. -/
theorem add_eq_addBroadcast (a b : Matrix) (h : a.cols = 1) :
    add a b = addBroadcast a b := by
  have hdata : (add a b).data = (addBroadcast a b).data := by
    funext i j
    show (if i < a.rows ∧ j < a.cols then a.data i j + b.data i j else 0) =
      (if i < a.rows ∧ j < a.cols then a.data i j + b.data i 0 else 0)
    by_cases hij : i < a.rows ∧ j < a.cols
    · have hj : j = 0 := by omega
      subst hj; rfl
    · rw [if_neg hij, if_neg hij]
  exact Matrix.ext rfl rfl hdata

theorem forwardLoop_eq_specForwardLoop :
    ∀ (pairs : List (Matrix × Matrix)) (act : Matrix), act.cols = 1 →
      forwardLoop act pairs = specForwardLoop act pairs
  | [], act, _ => rfl
  | [(w, b)], act, h => by
      show softmax (add (multiply w act) b) = softmax (addBroadcast (multiply w act) b)
      rw [add_eq_addBroadcast _ _ (by simpa using h)]
  | (w, b) :: p :: rest, act, h => by
      show forwardLoop (ReLU (add (multiply w act) b)) (p :: rest) =
        specForwardLoop (ReLU (addBroadcast (multiply w act) b)) (p :: rest)
      rw [add_eq_addBroadcast _ _ (by simpa using h)]
      exact forwardLoop_eq_specForwardLoop (p :: rest) _ (by simpa using h)

/-! ### Net-level lemmas -/

theorem getLastD_eq_getD {α : Type*} (l : List α) (d : α) :
    l.getLastD d = l.getD (l.length - 1) d := by
  rw [List.getLastD_eq_getLast?, List.getLast?_eq_getElem?, List.getD_eq_getElem?_getD]

theorem cachedActs_length (net : NeuralNetwork) (input : Matrix)
    (hb : net.biases.length = net.weights.length) :
    (cachedActs net input).length = net.weights.length + 1 := by
  unfold cachedActs
  rw [forwardStore_fst_length, List.length_zip, hb, min_self]

theorem cachedZs_length (net : NeuralNetwork) (input : Matrix)
    (hb : net.biases.length = net.weights.length) :
    (cachedZs net input).length = net.weights.length := by
  unfold cachedZs
  rw [forwardStore_snd_length, List.length_zip, hb, min_self]

theorem cachedActs_zero (net : NeuralNetwork) (input : Matrix) :
    (cachedActs net input).getD 0 Matrix.empty = input :=
  forwardStore_fst_zero _ _

theorem cached_recurrence (net : NeuralNetwork) (input : Matrix)
    (hb : net.biases.length = net.weights.length) (k : ℕ) (hk : k < net.weights.length) :
    ((cachedZs net input).getD k Matrix.empty =
      add (multiply (net.weights.getD k Matrix.empty) ((cachedActs net input).getD k Matrix.empty))
        (net.biases.getD k Matrix.empty)) ∧
    ((cachedActs net input).getD (k + 1) Matrix.empty =
      if k + 1 < net.weights.length then ReLU ((cachedZs net input).getD k Matrix.empty)
      else softmax ((cachedZs net input).getD k Matrix.empty)) := by
  have hzlen : (net.weights.zip net.biases).length = net.weights.length := by
    rw [List.length_zip, hb, min_self]
  obtain ⟨h1, h2⟩ := forwardStore_spec (net.weights.zip net.biases) input k (by rw [hzlen]; exact hk)
  have hpair : (net.weights.zip net.biases).getD k (Matrix.empty, Matrix.empty) =
      (net.weights.getD k Matrix.empty, net.biases.getD k Matrix.empty) :=
    zip_getD _ _ _ _ _ hk (by rw [hb]; exact hk)
  rw [hpair] at h1
  refine ⟨h1, ?_⟩
  rw [show (cachedActs net input).getD (k + 1) Matrix.empty =
    (forwardStore input (net.weights.zip net.biases)).1.getD (k + 1) Matrix.empty from rfl, h2, hzlen]
  rfl

theorem backpropagate_layers (net : NeuralNetwork) (input expected : Matrix) :
    (backpropagate net input expected).layers = net.layers := by
  unfold backpropagate
  rcases h : net.weights.length with _ | n <;> simp

theorem backpropagate_weights_getD (net : NeuralNetwork) (input expected : Matrix)
    (hn : 0 < net.weights.length) (hb : net.biases.length = net.weights.length)
    (j : ℕ) (hj : j < net.weights.length) :
    (backpropagate net input expected).weights.getD j Matrix.empty =
      subtract (net.weights.getD j Matrix.empty)
        (scalarMultiply LEARNING_RATE
          (add (multiply (layerDelta net input expected j)
              (transpose ((cachedActs net input).getD j Matrix.empty)))
            (scalarMultiply L2_LAMBDA (net.weights.getD j Matrix.empty)))) := by
  obtain ⟨n, hnn⟩ : ∃ n, net.weights.length = n + 1 := ⟨net.weights.length - 1, by omega⟩
  have h1 := (backLoop_getD (cachedActs net input) (cachedZs net input) n
    (outputDelta net input expected) net.weights net.biases (by omega) (by omega) j).1
  rw [if_pos (by omega)] at h1
  unfold backpropagate
  rw [show (match net.weights.length with
    | 0 => net
    | n + 1 =>
        { net with
          weights := (backLoop (cachedActs net input) (cachedZs net input) n
            (outputDelta net input expected) net.weights net.biases).1,
          biases := (backLoop (cachedActs net input) (cachedZs net input) n
            (outputDelta net input expected) net.weights net.biases).2 } : NeuralNetwork) =
      { net with
          weights := (backLoop (cachedActs net input) (cachedZs net input) n
            (outputDelta net input expected) net.weights net.biases).1,
          biases := (backLoop (cachedActs net input) (cachedZs net input) n
            (outputDelta net input expected) net.weights net.biases).2 } by rw [hnn]]
  rw [show ({ net with
      weights := (backLoop (cachedActs net input) (cachedZs net input) n
        (outputDelta net input expected) net.weights net.biases).1,
      biases := (backLoop (cachedActs net input) (cachedZs net input) n
        (outputDelta net input expected) net.weights net.biases).2 } : NeuralNetwork).weights =
    (backLoop (cachedActs net input) (cachedZs net input) n
      (outputDelta net input expected) net.weights net.biases).1 from rfl]
  rw [h1]
  unfold layerDelta
  rw [hnn]
  simp

theorem backpropagate_biases_getD (net : NeuralNetwork) (input expected : Matrix)
    (hn : 0 < net.weights.length) (hb : net.biases.length = net.weights.length)
    (j : ℕ) (hj : j < net.weights.length) :
    (backpropagate net input expected).biases.getD j Matrix.empty =
      subtract (net.biases.getD j Matrix.empty)
        (scalarMultiply LEARNING_RATE (layerDelta net input expected j)) := by
  obtain ⟨n, hnn⟩ : ∃ n, net.weights.length = n + 1 := ⟨net.weights.length - 1, by omega⟩
  have h2 := (backLoop_getD (cachedActs net input) (cachedZs net input) n
    (outputDelta net input expected) net.weights net.biases (by omega) (by omega) j).2
  rw [if_pos (by omega)] at h2
  unfold backpropagate
  rw [show (match net.weights.length with
    | 0 => net
    | n + 1 =>
        { net with
          weights := (backLoop (cachedActs net input) (cachedZs net input) n
            (outputDelta net input expected) net.weights net.biases).1,
          biases := (backLoop (cachedActs net input) (cachedZs net input) n
            (outputDelta net input expected) net.weights net.biases).2 } : NeuralNetwork) =
      { net with
          weights := (backLoop (cachedActs net input) (cachedZs net input) n
            (outputDelta net input expected) net.weights net.biases).1,
          biases := (backLoop (cachedActs net input) (cachedZs net input) n
            (outputDelta net input expected) net.weights net.biases).2 } by rw [hnn]]
  rw [show ({ net with
      weights := (backLoop (cachedActs net input) (cachedZs net input) n
        (outputDelta net input expected) net.weights net.biases).1,
      biases := (backLoop (cachedActs net input) (cachedZs net input) n
        (outputDelta net input expected) net.weights net.biases).2 } : NeuralNetwork).biases =
    (backLoop (cachedActs net input) (cachedZs net input) n
      (outputDelta net input expected) net.weights net.biases).2 from rfl]
  rw [h2]
  unfold layerDelta
  rw [hnn]
  simp

theorem layerDelta_top (net : NeuralNetwork) (input expected : Matrix) :
    layerDelta net input expected (net.weights.length - 1) = outputDelta net input expected := by
  unfold layerDelta
  rw [Nat.sub_self]
  rfl

theorem layerDelta_succ (net : NeuralNetwork) (input expected : Matrix) (j : ℕ)
    (hj : j + 1 < net.weights.length) :
    layerDelta net input expected j =
      scalarMultiply DELTA_SCALE
        (elementwiseMultiply
          (multiply (transpose (net.weights.getD (j + 1) Matrix.empty))
            (layerDelta net input expected (j + 1)))
          (ReLUDerivative ((cachedZs net input).getD j Matrix.empty))) := by
  unfold layerDelta
  have hkj : net.weights.length - 1 - j = (net.weights.length - 1 - (j + 1)) + 1 := by omega
  rw [hkj, deltaDown_succ_last]
  have hidx : net.weights.length - 1 - (net.weights.length - 1 - (j + 1)) = j + 1 := by omega
  unfold propagateStep
  rw [hidx, Nat.add_sub_cancel]

/-! ### Softmax lemmas -/

theorem softmax_sum_exp_pos (m : Matrix) (j : ℕ) (hr : 0 < m.rows) :
    0 < ∑ k ∈ Finset.range m.rows, Real.exp (m.data k j) :=
  Finset.sum_pos (fun k _ => Real.exp_pos _) (by simpa using Finset.nonempty_range_iff.mpr (by omega))

theorem softmax_col_sum (m : Matrix) (hr : 0 < m.rows) (j : ℕ) (hj : j < m.cols) :
    ∑ i ∈ Finset.range m.rows, (softmax m).data i j = 1 := by
  have hS := softmax_sum_exp_pos m j hr
  calc ∑ i ∈ Finset.range m.rows, (softmax m).data i j
      = ∑ i ∈ Finset.range m.rows,
          Real.exp (m.data i j) / ∑ k ∈ Finset.range m.rows, Real.exp (m.data k j) :=
        Finset.sum_congr rfl (fun i hi => by
          rw [softmax_data, if_pos ⟨Finset.mem_range.mp hi, hj⟩])
    _ = (∑ i ∈ Finset.range m.rows, Real.exp (m.data i j)) /
          ∑ k ∈ Finset.range m.rows, Real.exp (m.data k j) := by rw [Finset.sum_div]
    _ = 1 := div_self (ne_of_gt hS)

theorem softmax_entry_formula (m : Matrix) (i j : ℕ) (hi : i < m.rows) (hj : j < m.cols) :
    (softmax m).data i j =
      Real.exp (m.data i j) / ∑ k ∈ Finset.range m.rows, Real.exp (m.data k j) := by
  rw [softmax_data, if_pos ⟨hi, hj⟩]

theorem softmax_entry_pos (m : Matrix) (i j : ℕ) (hi : i < m.rows) (hj : j < m.cols) :
    0 < (softmax m).data i j := by
  rw [softmax_entry_formula m i j hi hj]
  exact div_pos (Real.exp_pos _) (softmax_sum_exp_pos m j (by omega))

theorem softmax_entry_le_one (m : Matrix) (i j : ℕ) (hi : i < m.rows) (hj : j < m.cols) :
    (softmax m).data i j ≤ 1 := by
  rw [softmax_entry_formula m i j hi hj]
  rw [div_le_one (softmax_sum_exp_pos m j (by omega))]
  exact Finset.single_le_sum (fun k _ => (Real.exp_pos (m.data k j)).le) (Finset.mem_range.mpr hi)

theorem softmax_entry_lt_one (m : Matrix) (h2 : 2 ≤ m.rows) (i j : ℕ)
    (hi : i < m.rows) (hj : j < m.cols) :
    (softmax m).data i j < 1 := by
  rw [softmax_entry_formula m i j hi hj]
  rw [div_lt_one (softmax_sum_exp_pos m j (by omega))]
  refine Finset.single_lt_sum (f := fun k => Real.exp (m.data k j)) (i := i)
    (j := if i = 0 then 1 else 0) ?_ (Finset.mem_range.mpr hi)
    (Finset.mem_range.mpr ?_) (Real.exp_pos _) (fun k _ _ => (Real.exp_pos _).le)
  · split_ifs with h0 <;> omega
  · split_ifs with h0 <;> omega

/-! ### Constructor initialization lemmas -/

theorem initLoop_cons (u : ℕ → ℝ) (l0 l1 : ℕ) (rest : List ℕ) (k : ℕ) :
    initLoop u (l0 :: l1 :: rest) k =
      (randomMatrix l1 l0 (-(Real.sqrt (6 / ((l0 : ℝ) + (l1 : ℝ)))))
          (Real.sqrt (6 / ((l0 : ℝ) + (l1 : ℝ)))) u k
        :: (initLoop u (l1 :: rest) (k + l1 * l0 + l1)).1,
       randomMatrix l1 1 (-(Real.sqrt (6 / ((l0 : ℝ) + (l1 : ℝ)))))
          (Real.sqrt (6 / ((l0 : ℝ) + (l1 : ℝ)))) u (k + l1 * l0)
        :: (initLoop u (l1 :: rest) (k + l1 * l0 + l1)).2) := rfl

theorem initLoop_getD (u : ℕ → ℝ) :
    ∀ (ls : List ℕ) (k i : ℕ), i < (initLoop u ls k).1.length →
      ∃ kw kb : ℕ,
        (initLoop u ls k).1.getD i Matrix.empty =
          randomMatrix (ls.getD (i + 1) 0) (ls.getD i 0)
            (-(Real.sqrt (6 / ((ls.getD i 0 : ℝ) + (ls.getD (i + 1) 0 : ℝ)))))
            (Real.sqrt (6 / ((ls.getD i 0 : ℝ) + (ls.getD (i + 1) 0 : ℝ)))) u kw ∧
        (initLoop u ls k).2.getD i Matrix.empty =
          randomMatrix (ls.getD (i + 1) 0) 1
            (-(Real.sqrt (6 / ((ls.getD i 0 : ℝ) + (ls.getD (i + 1) 0 : ℝ)))))
            (Real.sqrt (6 / ((ls.getD i 0 : ℝ) + (ls.getD (i + 1) 0 : ℝ)))) u kb
  | [], k, i, hi => absurd hi (by simp [initLoop])
  | [l0], k, i, hi => absurd hi (by simp [initLoop])
  | l0 :: l1 :: rest, k, 0, hi => by
      refine ⟨k, k + l1 * l0, ?_, ?_⟩ <;> rw [initLoop_cons] <;> simp
  | l0 :: l1 :: rest, k, i + 1, hi => by
      have hi' : i < (initLoop u (l1 :: rest) (k + l1 * l0 + l1)).1.length := by
        rw [initLoop_cons] at hi
        simpa using hi
      obtain ⟨kw, kb, h1, h2⟩ := initLoop_getD u (l1 :: rest) (k + l1 * l0 + l1) i hi'
      refine ⟨kw, kb, ?_, ?_⟩ <;> rw [initLoop_cons] <;>
        simp only [List.getD_cons_succ] <;> assumption

theorem randomMatrix_bound (r c : ℕ) (L : ℝ) (hL : 0 ≤ L) (u : ℕ → ℝ)
    (hu : ∀ n, 0 ≤ u n ∧ u n ≤ 1) (k i j : ℕ) :
    |(randomMatrix r c (-L) L u k).data i j| ≤ L := by
  show |if i < r ∧ j < c then -L + (L - -L) * u (k + i * c + j) else 0| ≤ L
  split_ifs with h
  · obtain ⟨h0, h1⟩ := hu (k + i * c + j)
    rw [abs_le]
    constructor <;> nlinarith
  · simpa using hL

/-! ### Claim C1 -/

/-- C1 (counterexample): `backpropagate` does not fail on a shape-mismatched
expected output and does not leave the network unchanged.  With `exNetA`
(layers `{1, 1}`) and an expected output of row count `2 ≠ layers[last] = 1`,
the call runs to completion and mutates the bias (from `0` to `-0.001`),
refuting the claim that every such call fails with a ShapeMismatch-class error
before any mutation. -/
theorem c1_counterexample :
    exBadExpected.rows ≠ exNetA.layers.getLastD 0 ∧
    ((backpropagate exNetA (mat1x1 0) exBadExpected).biases.getD 0 Matrix.empty).data 0 0 = -0.001 ∧
    ((backpropagate exNetA (mat1x1 0) exBadExpected).biases.getD 0 Matrix.empty).data 0 0 ≠
      (exNetA.biases.getD 0 Matrix.empty).data 0 0 := by
  have hval : ((backpropagate exNetA (mat1x1 0) exBadExpected).biases.getD 0 Matrix.empty).data 0 0
      = -0.001 := by
    have h := backpropagate_biases_getD exNetA (mat1x1 0) exBadExpected
      (by simp [exNetA]) (by simp [exNetA]) 0 (by simp [exNetA])
    rw [h]
    simp [exNetA, mat1x1, exBadExpected, layerDelta, deltaDown, outputDelta, cachedActs, cachedZs,
      forwardStore, subtract_data, scalarMultiply_data, softmax_data, multiply_data, add_data,
      build_data, LEARNING_RATE, Matrix.empty, List.getLastD, Finset.sum_range_one, Real.exp_zero]
  refine ⟨by rw [show exNetA.layers.getLastD 0 = 1 from rfl]; norm_num [exBadExpected], hval, ?_⟩
  rw [hval, show (exNetA.biases.getD 0 Matrix.empty).data 0 0 = 0 from by
    simp [exNetA, mat1x1, build_data]]
  norm_num

/-- C1 (amended): `backpropagate` performs no shape validation at all.  For
every network with at least one transition and matched weight/bias list
lengths, and for matrices `input` and `expected` of arbitrary shapes, the call
executes the full update path: the layer list survives, and the last weight
and bias are overwritten with the usual gradient-descent updates computed from
the (possibly shape-nonsensical) forward pass. -/
theorem c1_backpropagate_unchecked_mutation (net : NeuralNetwork) (input expected : Matrix)
    (hn : 0 < net.weights.length) (hb : net.biases.length = net.weights.length) :
    (backpropagate net input expected).layers = net.layers ∧
    (backpropagate net input expected).biases.getD (net.weights.length - 1) Matrix.empty =
      subtract (net.biases.getD (net.weights.length - 1) Matrix.empty)
        (scalarMultiply LEARNING_RATE (outputDelta net input expected)) ∧
    (backpropagate net input expected).weights.getD (net.weights.length - 1) Matrix.empty =
      subtract (net.weights.getD (net.weights.length - 1) Matrix.empty)
        (scalarMultiply LEARNING_RATE
          (add (multiply (outputDelta net input expected)
              (transpose ((cachedActs net input).getD (net.weights.length - 1) Matrix.empty)))
            (scalarMultiply L2_LAMBDA
              (net.weights.getD (net.weights.length - 1) Matrix.empty)))) := by
  refine ⟨backpropagate_layers net input expected, ?_, ?_⟩
  · rw [backpropagate_biases_getD net input expected hn hb (net.weights.length - 1) (by omega),
      layerDelta_top]
  · rw [backpropagate_weights_getD net input expected hn hb (net.weights.length - 1) (by omega),
      layerDelta_top]

/-- C1 (witness): the amended theorem applied to the concrete network `exNetA`
and the shape-mismatched pair used in the counterexample. -/
theorem c1_witness :
    0 < exNetA.weights.length ∧ exNetA.biases.length = exNetA.weights.length ∧
    (backpropagate exNetA (mat1x1 5) exBadExpected).layers = exNetA.layers :=
  ⟨by simp [exNetA], rfl,
    (c1_backpropagate_unchecked_mutation exNetA (mat1x1 5) exBadExpected
      (by simp [exNetA]) rfl).1⟩

/-! ### Claim C2 -/

/-- C2 (counterexample): a shape-mismatched `add` call does not fail and does
not carry any error: `add` of the `[1 × 1]` matrix `[[1]]` and the `[2 × 2]`
all-ones matrix silently truncates to the left operand's shape and returns
`[[2]]`, refuting the claim that every shape-incompatible call fails with a
ShapeMismatch error. -/
theorem c2_counterexample :
    (mat1x1 1).rows ≠ (build 2 2 (fun _ _ => 1)).rows ∧
    add (mat1x1 1) (build 2 2 (fun _ _ => 1)) = mat1x1 2 := by
  refine ⟨by norm_num [mat1x1], ?_⟩
  refine Matrix.ext rfl rfl ?_
  funext i j
  show (if i < 1 ∧ j < 1 then _ + _ else (0 : ℝ)) = (if i < 1 ∧ j < 1 then 2 else 0)
  split_ifs with h
  · have h2 : i < 2 ∧ j < 2 := ⟨by omega, by omega⟩
    simp [mat1x1, build_data, h, h2]
    norm_num
  · rfl

/-- C2 (amended): no operation of `LinearAlgebra.c++` checks shapes and no
ShapeMismatch error exists.  For all operand matrices, compatible or not,
`add`/`subtract`/`elementwiseMultiply` produce a result with the left
operand's shape, `multiply` one of shape `[a.rows × b.cols]` summed over
`a.cols`, and `meanSquaredError` averages over the left operand's index range;
mismatched calls silently truncate (or, in C++, read out of bounds) instead of
failing.  Operands, being values of the embedding, are never modified. -/
theorem c2_ops_unchecked (a b : Matrix) :
    ((add a b).rows = a.rows ∧ (add a b).cols = a.cols) ∧
    ((subtract a b).rows = a.rows ∧ (subtract a b).cols = a.cols) ∧
    ((elementwiseMultiply a b).rows = a.rows ∧ (elementwiseMultiply a b).cols = a.cols) ∧
    ((multiply a b).rows = a.rows ∧ (multiply a b).cols = b.cols) ∧
    (∀ i j, i < a.rows → j < a.cols → (add a b).data i j = a.data i j + b.data i j) ∧
    (∀ i j, i < a.rows → j < a.cols → (subtract a b).data i j = a.data i j - b.data i j) ∧
    (∀ i j, i < a.rows → j < a.cols →
      (elementwiseMultiply a b).data i j = a.data i j * b.data i j) ∧
    (∀ i j, i < a.rows → j < b.cols →
      (multiply a b).data i j = ∑ k ∈ Finset.range a.cols, a.data i k * b.data k j) ∧
    meanSquaredError a b =
      (∑ i ∈ Finset.range a.rows, ∑ j ∈ Finset.range a.cols,
        (a.data i j - b.data i j) * (a.data i j - b.data i j)) / (2 * a.rows * a.cols) := by
  refine ⟨⟨rfl, rfl⟩, ⟨rfl, rfl⟩, ⟨rfl, rfl⟩, ⟨rfl, rfl⟩, ?_, ?_, ?_, ?_, rfl⟩
  · intro i j hi hj
    rw [add_data, if_pos ⟨hi, hj⟩]
  · intro i j hi hj
    rw [subtract_data, if_pos ⟨hi, hj⟩]
  · intro i j hi hj
    show (if i < a.rows ∧ j < a.cols then a.data i j * b.data i j else 0) = _
    rw [if_pos ⟨hi, hj⟩]
  · intro i j hi hj
    rw [multiply_data, if_pos ⟨hi, hj⟩]

/-- C2 (witness): the amended theorem applied to the concrete mismatched pair
of the counterexample, evaluating `add` at entry `(0, 0)`. -/
theorem c2_witness :
    (0 : ℕ) < (mat1x1 1).rows ∧ (0 : ℕ) < (mat1x1 1).cols ∧
    (add (mat1x1 1) (build 2 2 (fun _ _ => 1))).data 0 0 =
      (mat1x1 1).data 0 0 + (build 2 2 (fun _ _ => 1)).data 0 0 :=
  ⟨by norm_num [mat1x1], by norm_num [mat1x1],
    (c2_ops_unchecked (mat1x1 1) (build 2 2 (fun _ _ => 1))).2.2.2.2.1 0 0
      (by norm_num [mat1x1]) (by norm_num [mat1x1])⟩

/-! ### Claim C3 -/

/-- C3: for every network and correctly-shaped `(input, expected)` pair,
`backpropagate` recomputes the forward pass caching every pre-activation `z`
and every activation with the input as `activations[0]`, sets the output delta
to `activations[last] − expected`, updates every bias as
`bias[j] := bias[j] − LEARNING_RATE · delta_j`, and the delta propagated to
layer `j` is computed from the pre-update value of `weights[j+1]`
(`layerDelta` reads the original weight list `net.weights`, not the updated
one). -/
theorem c3_backpropagate_cache_and_bias_updates (net : NeuralNetwork) (input expected : Matrix)
    (hn : 0 < net.weights.length) (hb : net.biases.length = net.weights.length)
    (hr : input.rows = net.layers.getD 0 0) (hcols : input.cols = expected.cols)
    (he : expected.rows = net.layers.getLastD 0) :
    (cachedActs net input).getD 0 Matrix.empty = input ∧
    (cachedActs net input).length = net.weights.length + 1 ∧
    (cachedZs net input).length = net.weights.length ∧
    (∀ k, k < net.weights.length →
      (cachedZs net input).getD k Matrix.empty =
        add (multiply (net.weights.getD k Matrix.empty)
            ((cachedActs net input).getD k Matrix.empty))
          (net.biases.getD k Matrix.empty) ∧
      (cachedActs net input).getD (k + 1) Matrix.empty =
        (if k + 1 < net.weights.length then ReLU ((cachedZs net input).getD k Matrix.empty)
         else softmax ((cachedZs net input).getD k Matrix.empty))) ∧
    outputDelta net input expected =
      subtract ((cachedActs net input).getD net.weights.length Matrix.empty) expected ∧
    layerDelta net input expected (net.weights.length - 1) = outputDelta net input expected ∧
    (∀ j, j + 1 < net.weights.length →
      layerDelta net input expected j =
        scalarMultiply DELTA_SCALE
          (elementwiseMultiply
            (multiply (transpose (net.weights.getD (j + 1) Matrix.empty))
              (layerDelta net input expected (j + 1)))
            (ReLUDerivative ((cachedZs net input).getD j Matrix.empty)))) ∧
    (∀ j, j < net.weights.length →
      (backpropagate net input expected).biases.getD j Matrix.empty =
        subtract (net.biases.getD j Matrix.empty)
          (scalarMultiply LEARNING_RATE (layerDelta net input expected j))) := by
  refine ⟨cachedActs_zero net input, cachedActs_length net input hb, cachedZs_length net input hb,
    fun k hk => cached_recurrence net input hb k hk, ?_, layerDelta_top net input expected,
    fun j hj => layerDelta_succ net input expected j hj,
    fun j hj => backpropagate_biases_getD net input expected hn hb j hj⟩
  unfold outputDelta
  rw [getLastD_eq_getD, cachedActs_length net input hb, Nat.add_sub_cancel]

/-- C3 (witness): the theorem applied to the concrete `{1, 1}` network
`exNetA` with the correctly-shaped pair `([[0]], [[0]])`. -/
theorem c3_witness :
    0 < exNetA.weights.length ∧
    (mat1x1 0).rows = exNetA.layers.getD 0 0 ∧
    (mat1x1 0).rows = exNetA.layers.getLastD 0 ∧
    (cachedActs exNetA (mat1x1 0)).getD 0 Matrix.empty = mat1x1 0 :=
  ⟨by simp [exNetA], rfl, rfl,
    (c3_backpropagate_cache_and_bias_updates exNetA (mat1x1 0) (mat1x1 0)
      (by simp [exNetA]) rfl rfl rfl rfl).1⟩

/-! ### Claim C4 -/

/-- C4 (counterexample): `feedforward` does not implement the claimed batched
iteration.  On the `{1, 2}` network `exNetB` and the `[1 × 2]` input
`exInputB` (two samples as columns, row count matching `layers[0]`), the
code's output differs at entry `(0, 1)` from the claimed iteration (embodied
by `specFeedforward`, whose bias is broadcast to every column): the C++ `add`
reads the `[2 × 1]` bias outside its single column (undefined behaviour,
refined to `0` here), so column `1` receives no bias. -/
theorem c4_counterexample :
    exInputB.rows = exNetB.layers.getD 0 0 ∧
    (feedforward exNetB exInputB).data 0 1 ≠ (specFeedforward exNetB exInputB).data 0 1 := by
  refine ⟨rfl, ?_⟩
  have hL : (feedforward exNetB exInputB).data 0 1 = 1 / 2 := by
    simp [feedforward, forwardLoop, exNetB, exInputB, softmax_data, add_data, multiply_data,
      build_data, Finset.sum_range_succ, Finset.sum_range_one, Real.exp_zero]
  have hR : (specFeedforward exNetB exInputB).data 0 1 = Real.exp 1 / (Real.exp 1 + 1) := by
    simp [specFeedforward, specForwardLoop, addBroadcast, exNetB, exInputB, softmax_data,
      multiply_data, build_data, Finset.sum_range_succ, Finset.sum_range_one, Real.exp_zero]
  rw [hL, hR]
  have he : 1 < Real.exp 1 := by linarith [Real.exp_one_gt_d9]
  have hpos : (0 : ℝ) < Real.exp 1 + 1 := by linarith
  intro h
  rw [div_eq_div_iff (by norm_num) (ne_of_gt hpos)] at h
  linarith

/-- C4 (amended): the claimed iteration holds only for single-column inputs.
For a well-formed network and any input with `rows = layers[0]` and exactly
one column, `feedforward` agrees with the spec's iteration (`specFeedforward`)
and returns a `[layers[last] × 1]` matrix.  (For inputs with more than one
column the bias addition reads out of the bias's index range, C++ undefined
behaviour, and the claimed result is not produced: see the counterexample.) -/
theorem c4_feedforward_single_column (net : NeuralNetwork) (input : Matrix)
    (hw : net.wellFormed) (hne : net.weights ≠ [])
    (hr : input.rows = net.layers.getD 0 0) (hc : input.cols = 1) :
    feedforward net input = specFeedforward net input ∧
    (feedforward net input).rows = net.layers.getLastD 0 ∧
    (feedforward net input).cols = 1 := by
  obtain ⟨hlay, hb, hsh⟩ := hw
  have hzlen : (net.weights.zip net.biases).length = net.weights.length := by
    rw [List.length_zip, hb, min_self]
  have hlen : 0 < net.weights.length := by
    cases hwz : net.weights with
    | nil => exact absurd hwz hne
    | cons x xs => simp [hwz]
  refine ⟨forwardLoop_eq_specForwardLoop _ _ hc, ?_, ?_⟩
  · have hne2 : net.weights.zip net.biases ≠ [] := by
      intro hcon
      rw [hcon] at hzlen
      simp at hzlen
      omega
    rw [show feedforward net input = forwardLoop input (net.weights.zip net.biases) from rfl,
      forwardLoop_rows _ _ hne2, getLastD_eq_getD, hzlen,
      zip_getD _ _ _ _ _ (by omega) (by omega),
      (hsh (net.weights.length - 1) (by omega)).1, getLastD_eq_getD, hlay]
    have : net.weights.length - 1 + 1 = net.weights.length := by omega
    rw [this, Nat.add_sub_cancel]
  · rw [show feedforward net input = forwardLoop input (net.weights.zip net.biases) from rfl,
      forwardLoop_cols, hc]

/-- C4 (witness): the amended theorem applied to the well-formed `{1, 1}`
network `exNetA` with the single-column input `[[0]]`. -/
theorem c4_witness :
    exNetA.wellFormed ∧ (mat1x1 0).cols = 1 ∧
    feedforward exNetA (mat1x1 0) = specFeedforward exNetA (mat1x1 0) := by
  have hwf : exNetA.wellFormed := by
    refine ⟨rfl, rfl, fun i hi => ?_⟩
    match i, hi with
    | 0, _ => exact ⟨rfl, rfl, rfl, rfl⟩
  exact ⟨hwf, rfl,
    (c4_feedforward_single_column exNetA (mat1x1 0) hwf (by simp [exNetA]) rfl rfl).1⟩

/-! ### Claim C5 -/

/-- C5 (counterexample): the weight gradient is not `delta · transpose(activation)`
alone and L2 decay is not off by default.  On `exNetA` with input `[[1]]` and
expected `[[1]]` the output delta is zero, so the claimed update leaves the
weight at `1`; the code nevertheless changes it to `1 − 0.001 · 0.01` because
the hard-coded `L2_LAMBDA = 0.01` decay term is always added. -/
theorem c5_counterexample :
    ((backpropagate exNetA (mat1x1 1) (mat1x1 1)).weights.getD 0 Matrix.empty).data 0 0 =
      1 - 0.001 * 0.01 ∧
    ((backpropagate exNetA (mat1x1 1) (mat1x1 1)).weights.getD 0 Matrix.empty).data 0 0 ≠
      (exNetA.weights.getD 0 Matrix.empty).data 0 0 := by
  have hval : ((backpropagate exNetA (mat1x1 1) (mat1x1 1)).weights.getD 0 Matrix.empty).data 0 0
      = 1 - 0.001 * 0.01 := by
    have h := backpropagate_weights_getD exNetA (mat1x1 1) (mat1x1 1)
      (by simp [exNetA]) (by simp [exNetA]) 0 (by simp [exNetA])
    rw [h]
    simp [exNetA, mat1x1, layerDelta, deltaDown, outputDelta, cachedActs, cachedZs,
      forwardStore, subtract_data, scalarMultiply_data, softmax_data, multiply_data, add_data,
      transpose, build_data, LEARNING_RATE, L2_LAMBDA, Matrix.empty, List.getLastD,
      Finset.sum_range_one, Real.exp_ne_zero]
  refine ⟨hval, ?_⟩
  rw [hval, show (exNetA.weights.getD 0 Matrix.empty).data 0 0 = 1 from by
    simp [exNetA, mat1x1, build_data]]
  norm_num

/-- C5 (amended): in every `backpropagate` step the weight gradient for layer
`j` is `delta_j · transpose(activations[j])` PLUS the always-on hard-coded L2
decay term `0.01 · weights[j]`, and the delta propagated to layer `j` is
`elementwise(transpose(weights[j+1]) · delta_{j+1}, ReLUDerivative(z_j))`
rescaled by the hard-coded gain `1.5`; neither constant is configurable. -/
theorem c5_gradient_includes_l2_and_scale (net : NeuralNetwork) (input expected : Matrix)
    (hn : 0 < net.weights.length) (hb : net.biases.length = net.weights.length) :
    (∀ j, j < net.weights.length →
      (backpropagate net input expected).weights.getD j Matrix.empty =
        subtract (net.weights.getD j Matrix.empty)
          (scalarMultiply LEARNING_RATE
            (add (multiply (layerDelta net input expected j)
                (transpose ((cachedActs net input).getD j Matrix.empty)))
              (scalarMultiply L2_LAMBDA (net.weights.getD j Matrix.empty))))) ∧
    (∀ j, j + 1 < net.weights.length →
      layerDelta net input expected j =
        scalarMultiply DELTA_SCALE
          (elementwiseMultiply
            (multiply (transpose (net.weights.getD (j + 1) Matrix.empty))
              (layerDelta net input expected (j + 1)))
            (ReLUDerivative ((cachedZs net input).getD j Matrix.empty)))) ∧
    L2_LAMBDA = 0.01 ∧ DELTA_SCALE = 1.5 :=
  ⟨fun j hj => backpropagate_weights_getD net input expected hn hb j hj,
   fun j hj => layerDelta_succ net input expected j hj, rfl, rfl⟩

/-- C5 (witness): the amended theorem applied to the concrete network
`exNetA`, recovering the hard-coded constants. -/
theorem c5_witness :
    0 < exNetA.weights.length ∧ exNetA.biases.length = exNetA.weights.length ∧
    L2_LAMBDA = 0.01 ∧ DELTA_SCALE = 1.5 :=
  ⟨by simp [exNetA], rfl,
    (c5_gradient_includes_l2_and_scale exNetA (mat1x1 1) (mat1x1 1)
      (by simp [exNetA]) rfl).2.2⟩

/-! ### Claim C6 -/

/-- C6 (counterexample): constructing a network from the single-element layer
list `{5}` does not fail with an InvalidConfiguration error — no such error
exists in the code.  The constructor loop simply runs zero times and a network
is produced, with the layer list `[5]` and empty weight and bias lists. -/
theorem c6_counterexample :
    (construct [5] (fun _ => 0)).layers = [5] ∧
    (construct [5] (fun _ => 0)).weights = [] ∧
    (construct [5] (fun _ => 0)).biases = [] :=
  ⟨rfl, rfl, rfl⟩

/-- C6 (amended): the constructor performs no validation of the layer list.
For every random source, constructing from `{5}` succeeds and yields a network
with zero weight/bias pairs, on which `feedforward` returns its input
unchanged. -/
theorem c6_construct_no_validation (u : ℕ → ℝ) :
    (construct [5] u).layers = [5] ∧
    (construct [5] u).weights = [] ∧
    (construct [5] u).biases = [] ∧
    ∀ m : Matrix, feedforward (construct [5] u) m = m :=
  ⟨rfl, rfl, rfl, fun _ => rfl⟩

/-! ### Claim C7 -/

/-- C7: `feedforward` is pure.  The member call leaves the network state
unchanged (the C++ body assigns no member field), its output depends only on
the weights, biases and input (not even on the `layers` field), and a second
call on the post-call state returns an identical output matrix. -/
theorem c7_feedforward_pure (net net' : NeuralNetwork) (input : Matrix)
    (hw : net.weights = net'.weights) (hb : net.biases = net'.biases) :
    (feedforwardS net input).2 = net ∧
    (feedforwardS net input).1 = (feedforwardS net' input).1 ∧
    (feedforwardS ((feedforwardS net input).2) input).1 = (feedforwardS net input).1 := by
  refine ⟨rfl, ?_, rfl⟩
  show forwardLoop input (net.weights.zip net.biases) =
    forwardLoop input (net'.weights.zip net'.biases)
  rw [hw, hb]

/-- C7 (witness): the purity theorem applied to the concrete network `exNetA`
(compared with itself) on the input `[[0]]`. -/
theorem c7_witness :
    exNetA.weights = exNetA.weights ∧
    (feedforwardS exNetA (mat1x1 0)).2 = exNetA :=
  ⟨rfl, (c7_feedforward_pure exNetA exNetA (mat1x1 0) rfl rfl).1⟩

/-! ### Claim C8 -/

/-- C8 (counterexample): not every softmax entry is strictly below `1`.  On
the `[1 × 1]` matrix `[[0]]` the single softmax entry equals `exp 0 / exp 0 = 1`,
refuting the claim that every entry lies strictly between `0` and `1`. -/
theorem c8_counterexample :
    (softmax (mat1x1 0)).data 0 0 = 1 ∧ ¬ (softmax (mat1x1 0)).data 0 0 < 1 := by
  have h : (softmax (mat1x1 0)).data 0 0 = 1 := by
    simp [softmax_data, mat1x1, build_data, Finset.sum_range_one, Real.exp_zero]
  exact ⟨h, by rw [h]; exact lt_irrefl 1⟩

/-- C8 (amended): for every matrix with at least one row, each softmax entry
`(i, j)` equals `exp(x(i,j)) / Σ_k exp(x(k,j))`, every column sums exactly to
`1` (real arithmetic; the claimed `1e-9` tolerance is a floating-point
allowance), and every entry lies in `(0, 1]` — strictly below `1` whenever the
matrix has at least two rows.  On a single-row matrix every entry is exactly
`1`, so the interval open at `1` claimed for all matrices only holds from two
rows up. -/
theorem c8_softmax_columns (m : Matrix) (hr : 0 < m.rows) :
    (∀ i j, i < m.rows → j < m.cols →
      (softmax m).data i j =
        Real.exp (m.data i j) / ∑ k ∈ Finset.range m.rows, Real.exp (m.data k j)) ∧
    (∀ j, j < m.cols → ∑ i ∈ Finset.range m.rows, (softmax m).data i j = 1) ∧
    (∀ i j, i < m.rows → j < m.cols →
      0 < (softmax m).data i j ∧ (softmax m).data i j ≤ 1) ∧
    (2 ≤ m.rows → ∀ i j, i < m.rows → j < m.cols → (softmax m).data i j < 1) :=
  ⟨fun i j hi hj => softmax_entry_formula m i j hi hj,
   fun j hj => softmax_col_sum m hr j hj,
   fun i j hi hj => ⟨softmax_entry_pos m i j hi hj, softmax_entry_le_one m i j hi hj⟩,
   fun h2 i j hi hj => softmax_entry_lt_one m h2 i j hi hj⟩

/-- C8 (witness): the amended theorem applied to the `[2 × 1]` zero matrix;
its column sums to `1`. -/
theorem c8_witness :
    0 < (build 2 1 (fun _ _ => 0)).rows ∧
    ∑ i ∈ Finset.range (build 2 1 (fun _ _ => 0)).rows,
      (softmax (build 2 1 (fun _ _ => 0))).data i 0 = 1 :=
  ⟨by norm_num,
    (c8_softmax_columns (build 2 1 (fun _ _ => 0)) (by norm_num)).2.1 0 (by norm_num)⟩

/-! ### Claim C9 -/

/-- C9: for matrices of identical shape, `meanSquaredError(a, b)` is the sum
of squared entry differences over the whole index range divided by
`2 · rows · cols`. -/
theorem c9_meanSquaredError_formula (a b : Matrix)
    (hr : a.rows = b.rows) (hc : a.cols = b.cols) :
    meanSquaredError a b =
      (∑ i ∈ Finset.range a.rows, ∑ j ∈ Finset.range a.cols,
        (a.data i j - b.data i j) ^ 2) / (2 * a.rows * a.cols) := by
  unfold meanSquaredError
  congr 1
  refine Finset.sum_congr rfl (fun i _ => Finset.sum_congr rfl (fun j _ => ?_))
  ring

/-- C9 (witness): the theorem applied to the equal-shape pair
`([[3]], [[1]])`, whose mean squared error is `(3 − 1)² / 2 = 2`. -/
theorem c9_witness :
    (mat1x1 3).rows = (mat1x1 1).rows ∧ (mat1x1 3).cols = (mat1x1 1).cols ∧
    meanSquaredError (mat1x1 3) (mat1x1 1) =
      (∑ i ∈ Finset.range (mat1x1 3).rows, ∑ j ∈ Finset.range (mat1x1 3).cols,
        ((mat1x1 3).data i j - (mat1x1 1).data i j) ^ 2) /
        (2 * (mat1x1 3).rows * (mat1x1 3).cols) ∧
    meanSquaredError (mat1x1 3) (mat1x1 1) = 2 := by
  refine ⟨rfl, rfl, c9_meanSquaredError_formula (mat1x1 3) (mat1x1 1) rfl rfl, ?_⟩
  unfold meanSquaredError
  simp [mat1x1, build_data, Finset.sum_range_one]
  norm_num

/-! ### Claim C10 -/

/-- C10: network construction unconditionally uses Xavier initialization.
For every layer list, every weight and bias of transition `i` is a
`randomMatrix` draw over `[-limit, limit]` with
`limit = sqrt(6 / (layers[i] + layers[i+1]))` — the biases use the very same
bound as the weights, not a zero fill — and, provided every `rand()/RAND_MAX`
draw lies in `[0, 1]`, every entry of both lies within `[-limit, limit]`. -/
theorem c10_xavier_initialization (layers : List ℕ) (u : ℕ → ℝ)
    (hu : ∀ n, 0 ≤ u n ∧ u n ≤ 1) :
    ∀ i, i < (construct layers u).weights.length →
      ∃ kw kb : ℕ,
        (construct layers u).weights.getD i Matrix.empty =
          randomMatrix (layers.getD (i + 1) 0) (layers.getD i 0)
            (-(Real.sqrt (6 / ((layers.getD i 0 : ℝ) + (layers.getD (i + 1) 0 : ℝ)))))
            (Real.sqrt (6 / ((layers.getD i 0 : ℝ) + (layers.getD (i + 1) 0 : ℝ)))) u kw ∧
        (construct layers u).biases.getD i Matrix.empty =
          randomMatrix (layers.getD (i + 1) 0) 1
            (-(Real.sqrt (6 / ((layers.getD i 0 : ℝ) + (layers.getD (i + 1) 0 : ℝ)))))
            (Real.sqrt (6 / ((layers.getD i 0 : ℝ) + (layers.getD (i + 1) 0 : ℝ)))) u kb ∧
        (∀ r c : ℕ, |((construct layers u).weights.getD i Matrix.empty).data r c| ≤
          Real.sqrt (6 / ((layers.getD i 0 : ℝ) + (layers.getD (i + 1) 0 : ℝ)))) ∧
        (∀ r c : ℕ, |((construct layers u).biases.getD i Matrix.empty).data r c| ≤
          Real.sqrt (6 / ((layers.getD i 0 : ℝ) + (layers.getD (i + 1) 0 : ℝ)))) := by
  intro i hi
  obtain ⟨kw, kb, h1, h2⟩ := initLoop_getD u layers 0 i hi
  refine ⟨kw, kb, h1, h2, ?_, ?_⟩
  · intro r c
    rw [show (construct layers u).weights.getD i Matrix.empty =
      (initLoop u layers 0).1.getD i Matrix.empty from rfl, h1]
    exact randomMatrix_bound _ _ _ (Real.sqrt_nonneg _) u hu kw r c
  · intro r c
    rw [show (construct layers u).biases.getD i Matrix.empty =
      (initLoop u layers 0).2.getD i Matrix.empty from rfl, h2]
    exact randomMatrix_bound _ _ _ (Real.sqrt_nonneg _) u hu kb r c

/-- C10 (witness): the theorem applied to the layer list `[1, 2]` with the
constant draw sequence `0`, instantiated at transition `0`. -/
theorem c10_witness :
    (∀ n : ℕ, 0 ≤ (fun _ : ℕ => (0 : ℝ)) n ∧ (fun _ : ℕ => (0 : ℝ)) n ≤ 1) ∧
    (0 < (construct [1, 2] (fun _ : ℕ => (0 : ℝ))).weights.length) ∧
    ∃ kw kb : ℕ,
      (construct [1, 2] (fun _ : ℕ => (0 : ℝ))).weights.getD 0 Matrix.empty =
        randomMatrix (([1, 2] : List ℕ).getD 1 0) (([1, 2] : List ℕ).getD 0 0)
          (-(Real.sqrt (6 / ((([1, 2] : List ℕ).getD 0 0 : ℝ) + (([1, 2] : List ℕ).getD 1 0 : ℝ)))))
          (Real.sqrt (6 / ((([1, 2] : List ℕ).getD 0 0 : ℝ) + (([1, 2] : List ℕ).getD 1 0 : ℝ))))
          (fun _ : ℕ => (0 : ℝ)) kw ∧
      (construct [1, 2] (fun _ : ℕ => (0 : ℝ))).biases.getD 0 Matrix.empty =
        randomMatrix (([1, 2] : List ℕ).getD 1 0) 1
          (-(Real.sqrt (6 / ((([1, 2] : List ℕ).getD 0 0 : ℝ) + (([1, 2] : List ℕ).getD 1 0 : ℝ)))))
          (Real.sqrt (6 / ((([1, 2] : List ℕ).getD 0 0 : ℝ) + (([1, 2] : List ℕ).getD 1 0 : ℝ))))
          (fun _ : ℕ => (0 : ℝ)) kb ∧
      (∀ r c : ℕ,
        |((construct [1, 2] (fun _ : ℕ => (0 : ℝ))).weights.getD 0 Matrix.empty).data r c| ≤
          Real.sqrt (6 / ((([1, 2] : List ℕ).getD 0 0 : ℝ) + (([1, 2] : List ℕ).getD 1 0 : ℝ)))) ∧
      (∀ r c : ℕ,
        |((construct [1, 2] (fun _ : ℕ => (0 : ℝ))).biases.getD 0 Matrix.empty).data r c| ≤
          Real.sqrt (6 / ((([1, 2] : List ℕ).getD 0 0 : ℝ) + (([1, 2] : List ℕ).getD 1 0 : ℝ)))) := by
  have hu : ∀ n : ℕ, 0 ≤ (fun _ : ℕ => (0 : ℝ)) n ∧ (fun _ : ℕ => (0 : ℝ)) n ≤ 1 :=
    fun _ => ⟨le_rfl, zero_le_one⟩
  exact ⟨hu, by simp [construct, initLoop_cons],
    c10_xavier_initialization [1, 2] (fun _ : ℕ => (0 : ℝ)) hu 0 (by simp [construct, initLoop_cons])⟩

end NN
